import Mathlib

/-!
Verification of the CosmWasm VM memory boundary (packages/vm/src/memory.rs and
packages/vm/src/wasm.rs): Region validation, bounds-checked guest-memory access,
gas metering and trap classification.

Guest linear memory is modelled as a list of bytes (`Mem`); a `Region` struct
stored at a pointer occupies twelve bytes, three little-endian u32 fields in
order offset, capacity, length, matching the `#[repr(C)]` layout. A wasmer
pointer dereference succeeds exactly when the accessed range lies inside the
current memory size, matching `WasmPtr::deref` of wasmer 1.x. Fallible Rust
functions become `Except`-valued Lean functions.
-/

namespace CosmwasmVM

def U32MAX : Nat := 4294967295

/-- Region from memory.rs: describes data allocated in Wasm linear memory. -/
structure Region where
  offset : Nat
  capacity : Nat
  length : Nat
deriving DecidableEq, Repr

/-- Modelled from the spec: the variants of RegionValidationError from
crate::errors (the errors module is not under src/); payloads follow the
constructor calls made by validate_region. -/
inductive RegionValidationError where
  | zeroOffset : RegionValidationError
  | lengthExceedsCapacity (length capacity : Nat) : RegionValidationError
  | outOfRange (offset capacity : Nat) : RegionValidationError
deriving DecidableEq, Repr

/-- Modelled from the spec: the error kinds of crate::errors reachable from the
functions under verification (CommunicationError, ConversionError and VmError
are not under src/), flattened into one type the way the question-mark operator
converts them all into VmError. -/
inductive VmError where
  | validation (e : RegionValidationError)
  | derefErr (offset : Nat)
  | regionTooBig (actual max : Nat)
  | regionTooSmall (capacity requested : Nat)
  | conversionErr (value : Nat)
  | gasDepletion
  | runtimeErr (trap : Nat)
  | funcNotFound (name : Nat)
deriving DecidableEq, Repr

deriving instance DecidableEq for Except

/-- validate_region from memory.rs: three checks in source order. -/
def validate_region (region : Region) : Except RegionValidationError Unit :=
  if region.offset = 0 then
    Except.error RegionValidationError.zeroOffset
  else if region.capacity < region.length then
    Except.error (RegionValidationError.lengthExceedsCapacity region.length region.capacity)
  else if U32MAX - region.offset < region.capacity then
    Except.error (RegionValidationError.outOfRange region.offset region.capacity)
  else
    Except.ok ()

/-- Guest linear memory: a list of bytes. -/
abbrev Mem := List Nat

/-- Read one byte; reduction modulo 256 keeps every read a byte value. -/
def readByte (m : Mem) (i : Nat) : Nat := m.getD i 0 % 256

/-- Little-endian decoding of a u32 at position p, as the host's view of a
u32 field of a repr(C) Region living in wasm32 (little-endian) memory. -/
def readU32 (m : Mem) (p : Nat) : Nat :=
  readByte m p + 256 * readByte m (p + 1) + 65536 * readByte m (p + 2) +
    16777216 * readByte m (p + 3)

/-- Store a run of bytes starting at position p. -/
def writeBytes (m : Mem) (p : Nat) (data : List Nat) : Mem :=
  match data with
  | [] => m
  | b :: rest => writeBytes (m.set p b) (p + 1) rest

/-- Little-endian encoding of a u32 value as four bytes. -/
def encodeU32 (v : Nat) : List Nat :=
  [v % 256, v / 256 % 256, v / 65536 % 256, v / 16777216 % 256]

/-- get_region from wasm.rs: dereference the Region record at ptr (wasmer
Item deref: the twelve bytes must fit inside memory), copy the fields out,
then run validate_region. -/
def get_region (m : Mem) (ptr : Nat) : Except VmError Region :=
  if ptr + 12 ≤ m.length then
    match validate_region ⟨readU32 m ptr, readU32 m (ptr + 4), readU32 m (ptr + 8)⟩ with
    | Except.ok _ => Except.ok ⟨readU32 m ptr, readU32 m (ptr + 4), readU32 m (ptr + 8)⟩
    | Except.error e => Except.error (VmError.validation e)
  else
    Except.error (VmError.derefErr ptr)

/-- Modelled from the spec: crate::conversion::to_u32 is not under src/; it
converts a usize into a u32 and fails with a conversion error when the value
exceeds u32::MAX. -/
def to_u32 (n : Nat) : Except VmError Nat :=
  if n ≤ U32MAX then Except.ok n else Except.error (VmError.conversionErr n)

/-- Copy n bytes out of guest memory starting at position p. -/
def readBytes (m : Mem) (p n : Nat) : List Nat :=
  (List.range n).map (fun i => readByte m (p + i))

/-- read_region from wasm.rs: get_region, then the max_length conversion and
comparison, then an Array deref of length bytes at the region's offset. -/
def read_region (m : Mem) (ptr : Nat) (max_length : Nat) : Except VmError (List Nat) :=
  match get_region m ptr with
  | Except.error e => Except.error e
  | Except.ok region =>
    match to_u32 max_length with
    | Except.error e => Except.error e
    | Except.ok maxu =>
      if maxu < region.length then
        Except.error (VmError.regionTooBig region.length max_length)
      else if region.offset + region.length ≤ m.length then
        Except.ok (readBytes m region.offset region.length)
      else
        Except.error (VmError.derefErr region.offset)

/-- set_region from wasm.rs: overwrite the Region record at ptr in place. -/
def set_region (m : Mem) (ptr : Nat) (data : Region) : Except VmError Mem :=
  if ptr + 12 ≤ m.length then
    Except.ok (writeBytes m ptr
      (encodeU32 data.offset ++ encodeU32 data.capacity ++ encodeU32 data.length))
  else
    Except.error (VmError.derefErr ptr)

/-- write_region from wasm.rs: get_region, capacity check, Array deref of
capacity bytes, copy the data into the first data.len() bytes, then persist
the Region with its updated length via set_region. -/
def write_region (m : Mem) (ptr : Nat) (data : List Nat) : Except VmError Mem :=
  match get_region m ptr with
  | Except.error e => Except.error e
  | Except.ok region =>
    if region.capacity < data.length then
      Except.error (VmError.regionTooSmall region.capacity data.length)
    else if region.offset + region.capacity ≤ m.length then
      set_region (writeBytes m region.offset data) ptr
        ⟨region.offset, region.capacity, data.length⟩
    else
      Except.error (VmError.derefErr region.offset)

/-- MeteringPoints as returned by wasmer_middlewares::metering. -/
inductive MeteringPoints where
  | remaining (count : Nat)
  | exhausted
deriving DecidableEq, Repr

/-- get_gas_left from wasm.rs. -/
def get_gas_left (points : MeteringPoints) : Nat :=
  match points with
  | MeteringPoints.remaining count => count
  | MeteringPoints.exhausted => 0

/-- A guest export: given arguments, it either returns values or traps, and
leaves the instance's metering state as observed right after the call. -/
def GuestFunc := List Nat → Except Nat (List Nat) × MeteringPoints

/-- call_function from wasm.rs: resolve the export by name, call it, and on a
trap classify it against the metering state observed at that moment. -/
def call_function (lookup : Nat → Option GuestFunc) (name : Nat) (args : List Nat) :
    Except VmError (List Nat) :=
  match lookup name with
  | none => Except.error (VmError.funcNotFound name)
  | some f =>
    match f args with
    | (Except.ok vals, _) => Except.ok vals
    | (Except.error trap, MeteringPoints.remaining _) =>
        Except.error (VmError.runtimeErr trap)
    | (Except.error _, MeteringPoints.exhausted) =>
        Except.error VmError.gasDepletion

/-- The memory method of the WasmVM implementation for WasmerInstance picks the
first exported linear memory; when the module exports none, the source calls
expect, aborting the host process: that abort is modelled as none. -/
def memory {α : Type} (exportedMemories : List α) : Option α :=
  exportedMemories.head?

/-! Helper lemmas about the byte-level memory model. -/

theorem readByte_lt (m : Mem) (i : Nat) : readByte m i < 256 :=
  Nat.mod_lt _ (by omega)

theorem readU32_le (m : Mem) (p : Nat) : readU32 m p ≤ U32MAX := by
  have h0 := readByte_lt m p
  have h1 := readByte_lt m (p + 1)
  have h2 := readByte_lt m (p + 2)
  have h3 := readByte_lt m (p + 3)
  unfold readU32 U32MAX
  omega

theorem writeBytes_length (data : List Nat) (m : Mem) (p : Nat) :
    (writeBytes m p data).length = m.length := by
  induction data generalizing m p with
  | nil => rfl
  | cons b rest ih => rw [writeBytes, ih, List.length_set]

theorem getD_writeBytes_outside (data : List Nat) (m : Mem) (p i : Nat)
    (h : i < p ∨ p + data.length ≤ i) :
    (writeBytes m p data).getD i 0 = m.getD i 0 := by
  induction data generalizing m p with
  | nil => rfl
  | cons b rest ih =>
    simp only [List.length_cons] at h
    have h' : i < p + 1 ∨ (p + 1) + rest.length ≤ i := by omega
    have hne : p ≠ i := by omega
    rw [writeBytes, ih (m.set p b) (p + 1) h']
    simp [List.getD_eq_getElem?_getD, List.getElem?_set_ne hne]

theorem getD_writeBytes_inside (data : List Nat) (m : Mem) (p j : Nat)
    (hj : j < data.length) (hb : p + data.length ≤ m.length) :
    (writeBytes m p data).getD (p + j) 0 = data.getD j 0 := by
  induction data generalizing m p j with
  | nil => simp at hj
  | cons b rest ih =>
    simp only [List.length_cons] at hj hb
    cases j with
    | zero =>
      rw [writeBytes, getD_writeBytes_outside rest (m.set p b) (p + 1) (p + 0) (by omega)]
      have hp : p < m.length := by omega
      simp [List.getD_eq_getElem?_getD, List.getElem?_set_eq_of_lt b hp]
    | succ j' =>
      have harith : p + (j' + 1) = (p + 1) + j' := by omega
      rw [writeBytes, harith,
        ih (m.set p b) (p + 1) j' (by omega) (by rw [List.length_set]; omega)]
      rfl

/-- Characterization of validate_region success, internal helper. -/
theorem validate_ok_iff (r : Region) :
    validate_region r = Except.ok () ↔
      r.offset ≠ 0 ∧ r.length ≤ r.capacity ∧ r.capacity ≤ U32MAX - r.offset := by
  unfold validate_region
  repeat' split
  all_goals simp_all

/-- Inversion of a successful get_region, internal helper. -/
theorem get_region_ok (m : Mem) (ptr : Nat) (r : Region)
    (h : get_region m ptr = Except.ok r) :
    ptr + 12 ≤ m.length ∧ r.offset = readU32 m ptr ∧ r.capacity = readU32 m (ptr + 4) ∧
      r.length = readU32 m (ptr + 8) ∧ validate_region r = Except.ok () := by
  unfold get_region at h
  split at h
  case isTrue hlen =>
    split at h
    case h_1 u heq =>
      cases h
      exact ⟨hlen, rfl, rfl, rfl, by rw [heq]⟩
    case h_2 e heq => cases h
  case isFalse hlen => cases h

/-- Field bounds of a region returned by get_region, internal helper. -/
theorem get_region_ok_bounds (m : Mem) (ptr : Nat) (r : Region)
    (h : get_region m ptr = Except.ok r) :
    r.offset ≤ U32MAX ∧ r.capacity ≤ U32MAX ∧ r.length ≤ U32MAX := by
  obtain ⟨-, h1, h2, h3, -⟩ := get_region_ok m ptr r h
  exact ⟨h1 ▸ readU32_le m ptr, h2 ▸ readU32_le m (ptr + 4), h3 ▸ readU32_le m (ptr + 8)⟩

/-! Claim theorems. -/

/-- C1: for every Region r (with fields in u32 range), validate_region r
succeeds iff r.offset is nonzero, r.length does not exceed r.capacity and
r.capacity does not exceed u32::MAX minus r.offset; in particular the regions
with offset u32::MAX / capacity 0 / length 0 and offset 1 /
capacity u32::MAX - 1 / length 0 both validate Ok. -/
theorem validate_region_ok_characterization :
    (∀ r : Region, r.offset ≤ U32MAX → r.capacity ≤ U32MAX → r.length ≤ U32MAX →
      (validate_region r = Except.ok () ↔
        r.offset ≠ 0 ∧ r.length ≤ r.capacity ∧ r.capacity ≤ U32MAX - r.offset)) ∧
    validate_region ⟨U32MAX, 0, 0⟩ = Except.ok () ∧
    validate_region ⟨1, U32MAX - 1, 0⟩ = Except.ok () := by
  refine ⟨fun r _ _ _ => validate_ok_iff r, by decide, by decide⟩

/-- Witness for C1 at the concrete region offset 23, capacity 500, length 250. -/
theorem validate_region_ok_characterization_witness :
    validate_region ⟨23, 500, 250⟩ = Except.ok () :=
  (validate_region_ok_characterization.1 ⟨23, 500, 250⟩ (by decide) (by decide)
    (by decide)).mpr ⟨by decide, by decide, by decide⟩

/-- C6: validate_region reports the first failing check in the fixed order
ZeroOffset, then LengthExceedsCapacity carrying the exact length and capacity,
then OutOfRange carrying the exact offset and capacity; the region with
offset 23, capacity 500, length 501 fails with LengthExceedsCapacity 501 500. -/
theorem validate_region_error_order :
    (∀ r : Region,
      (r.offset = 0 → validate_region r = Except.error RegionValidationError.zeroOffset) ∧
      (r.offset ≠ 0 → r.capacity < r.length →
        validate_region r =
          Except.error (RegionValidationError.lengthExceedsCapacity r.length r.capacity)) ∧
      (r.offset ≠ 0 → r.length ≤ r.capacity → U32MAX - r.offset < r.capacity →
        validate_region r =
          Except.error (RegionValidationError.outOfRange r.offset r.capacity))) ∧
    validate_region ⟨23, 500, 501⟩ =
      Except.error (RegionValidationError.lengthExceedsCapacity 501 500) := by
  refine ⟨fun r => ⟨fun h0 => ?_, fun h0 hlc => ?_, fun h0 hlc hor => ?_⟩, by decide⟩
  · unfold validate_region
    rw [if_pos h0]
  · unfold validate_region
    rw [if_neg h0, if_pos hlc]
  · unfold validate_region
    rw [if_neg h0, if_neg (by omega), if_pos hor]

/-- Witness for C6 at concrete regions exercising each error branch. -/
theorem validate_region_error_order_witness :
    validate_region ⟨0, 500, 250⟩ = Except.error RegionValidationError.zeroOffset ∧
    validate_region ⟨23, 500, 501⟩ =
      Except.error (RegionValidationError.lengthExceedsCapacity 501 500) ∧
    validate_region ⟨23, U32MAX, 501⟩ =
      Except.error (RegionValidationError.outOfRange 23 U32MAX) :=
  ⟨(validate_region_error_order.1 ⟨0, 500, 250⟩).1 rfl,
   (validate_region_error_order.1 ⟨23, 500, 501⟩).2.1 (by decide) (by decide),
   (validate_region_error_order.1 ⟨23, U32MAX, 501⟩).2.2 (by decide) (by decide) (by decide)⟩

/-- C8: get_gas_left returns 0 exactly in the Exhausted state and the remaining
point count otherwise; it is a total function into the natural numbers, so it
can return neither a negative value nor an error. -/
theorem get_gas_left_total :
    get_gas_left MeteringPoints.exhausted = 0 ∧
    (∀ count : Nat, get_gas_left (MeteringPoints.remaining count) = count) :=
  ⟨rfl, fun _ => rfl⟩

/-- C5 counterexample: on a guest module exporting no linear memory, memory
hits the expect call and aborts the host process (modelled as none), refuting
the claim that no boundary operation aborts on untrusted guest input. -/
theorem memory_no_export_aborts : memory ([] : List Nat) = none := rfl

/-- C5 amended: memory aborts the host process exactly when the module exports
no linear memory; whenever at least one memory is exported it returns the
first one without aborting. -/
theorem memory_first_export (ms : List Nat) :
    (memory ms = none ↔ ms = []) ∧
    (∀ x xs, ms = x :: xs → memory ms = some x) := by
  cases ms with
  | nil => exact ⟨by simp [memory], by intro x xs h; cases h⟩
  | cons y ys =>
    exact ⟨by simp [memory], by intro x xs h; cases h; rfl⟩

/-- Witness for C5 amended on a module exporting two memories. -/
theorem memory_first_export_witness : memory [5, 6] = some 5 :=
  (memory_first_export [5, 6]).2 5 [6] rfl

/-- C3: when a called export traps, call_function returns GasDepletion exactly
when the metering budget observed at the moment of the trap is exhausted, and
otherwise wraps the raw trap as a generic runtime error carrying the engine
diagnostics. -/
theorem call_function_trap_classification (lookup : Nat → Option GuestFunc)
    (name : Nat) (args : List Nat) (f : GuestFunc) (trap : Nat) (pts : MeteringPoints)
    (hf : lookup name = some f) (hcall : f args = (Except.error trap, pts)) :
    (call_function lookup name args = Except.error VmError.gasDepletion ↔
      pts = MeteringPoints.exhausted) ∧
    (∀ n, pts = MeteringPoints.remaining n →
      call_function lookup name args = Except.error (VmError.runtimeErr trap)) := by
  unfold call_function
  rw [hf]
  dsimp only
  rw [hcall]
  cases pts with
  | remaining n =>
    dsimp only
    refine ⟨⟨fun h => absurd h (by simp), fun h => absurd h (by simp)⟩, fun _ _ => rfl⟩
  | exhausted =>
    dsimp only
    exact ⟨⟨fun _ => rfl, fun _ => rfl⟩, fun n h => absurd h (by simp)⟩

/-- Witness for C3: a guest that traps with an exhausted budget yields
GasDepletion, and one that traps with budget left yields the wrapped trap. -/
theorem call_function_trap_classification_witness :
    call_function (fun _ => some (fun _ => (Except.error 7, MeteringPoints.exhausted))) 0 [] =
      Except.error VmError.gasDepletion ∧
    call_function (fun _ => some (fun _ => (Except.error 7, MeteringPoints.remaining 3))) 0 [] =
      Except.error (VmError.runtimeErr 7) :=
  ⟨(call_function_trap_classification
      (fun _ => some (fun _ => (Except.error 7, MeteringPoints.exhausted))) 0 []
      (fun _ => (Except.error 7, MeteringPoints.exhausted)) 7 MeteringPoints.exhausted
      rfl rfl).1.mpr rfl,
   (call_function_trap_classification
      (fun _ => some (fun _ => (Except.error 7, MeteringPoints.remaining 3))) 0 []
      (fun _ => (Except.error 7, MeteringPoints.remaining 3)) 7 (MeteringPoints.remaining 3)
      rfl rfl).2 3 rfl⟩

/-- A concrete memory of sixteen bytes holding at pointer 0 the Region
offset 12, capacity 4, length 3, whose buffer is the last four bytes. -/
def wMem2 : Mem := [12, 0, 0, 0, 4, 0, 0, 0, 3, 0, 0, 0, 9, 9, 9, 9]

/-- C2: given the Region r stored at ptr, read_region fails with RegionTooBig
exactly when r.length exceeds max_length, and any RegionTooBig error it
returns carries actual = r.length and max = max_length. -/
theorem read_region_region_too_big (m : Mem) (ptr max_length : Nat) (r : Region)
    (hget : get_region m ptr = Except.ok r) :
    (read_region m ptr max_length =
        Except.error (VmError.regionTooBig r.length max_length) ↔
      max_length < r.length) ∧
    (∀ a b, read_region m ptr max_length = Except.error (VmError.regionTooBig a b) →
      a = r.length ∧ b = max_length) := by
  have hlen : r.length ≤ U32MAX := (get_region_ok_bounds m ptr r hget).2.2
  unfold read_region
  rw [hget]
  dsimp only
  unfold to_u32
  by_cases hmax : max_length ≤ U32MAX
  · rw [if_pos hmax]
    dsimp only
    by_cases hbig : max_length < r.length
    · rw [if_pos hbig]
      refine ⟨⟨fun _ => hbig, fun _ => rfl⟩, fun a b h => ?_⟩
      simp only [Except.error.injEq, VmError.regionTooBig.injEq] at h
      exact ⟨h.1.symm, h.2.symm⟩
    · rw [if_neg hbig]
      refine ⟨⟨fun h => ?_, fun h => absurd h hbig⟩, fun a b h => ?_⟩
      · split at h <;> simp at h
      · split at h <;> simp at h
  · rw [if_neg hmax]
    dsimp only
    have hnb : ¬ max_length < r.length := by omega
    exact ⟨⟨fun h => by simp at h, fun h => absurd h hnb⟩, fun a b h => by simp at h⟩

/-- Witness for C2: reading with bound 2 a region of length 3 fails with
RegionTooBig carrying 3 and 2. -/
theorem read_region_region_too_big_witness :
    read_region wMem2 0 2 = Except.error (VmError.regionTooBig 3 2) :=
  (read_region_region_too_big wMem2 0 2 ⟨12, 4, 3⟩ (by decide)).1.mpr (by decide)

/-- C7: given the Region r stored at ptr, write_region fails with
RegionTooSmall exactly when data.length exceeds r.capacity, and any
RegionTooSmall error it returns carries capacity = r.capacity and
requested = data.length. -/
theorem write_region_region_too_small (m : Mem) (ptr : Nat) (data : List Nat) (r : Region)
    (hget : get_region m ptr = Except.ok r) :
    (write_region m ptr data =
        Except.error (VmError.regionTooSmall r.capacity data.length) ↔
      r.capacity < data.length) ∧
    (∀ c q, write_region m ptr data = Except.error (VmError.regionTooSmall c q) →
      c = r.capacity ∧ q = data.length) := by
  unfold write_region
  rw [hget]
  dsimp only
  by_cases hsm : r.capacity < data.length
  · rw [if_pos hsm]
    refine ⟨⟨fun _ => hsm, fun _ => rfl⟩, fun c q h => ?_⟩
    simp only [Except.error.injEq, VmError.regionTooSmall.injEq] at h
    exact ⟨h.1.symm, h.2.symm⟩
  · rw [if_neg hsm]
    refine ⟨⟨fun h => ?_, fun h => absurd h hsm⟩, fun c q h => ?_⟩
    · split at h
      · unfold set_region at h; split at h <;> simp at h
      · simp at h
    · split at h
      · unfold set_region at h; split at h <;> simp at h
      · simp at h

/-- Witness for C7: writing five bytes into a region of capacity four fails
with RegionTooSmall carrying 4 and 5. -/
theorem write_region_region_too_small_witness :
    write_region wMem2 0 [1, 2, 3, 4, 5] = Except.error (VmError.regionTooSmall 4 5) :=
  (write_region_region_too_small wMem2 0 [1, 2, 3, 4, 5] ⟨12, 4, 3⟩ (by decide)).1.mpr
    (by decide)

/-- C10: for any max_length beyond u32::MAX, read_region fails with the size
conversion error, distinct from RegionTooBig, even though the Region stored at
ptr is valid and addressable and its length cannot exceed max_length. -/
theorem read_region_large_max_conversion (m : Mem) (ptr max_length : Nat) (r : Region)
    (hget : get_region m ptr = Except.ok r) (hmax : U32MAX < max_length) :
    r.length ≤ max_length ∧
    read_region m ptr max_length = Except.error (VmError.conversionErr max_length) ∧
    (∀ a b, read_region m ptr max_length ≠ Except.error (VmError.regionTooBig a b)) := by
  have hlen : r.length ≤ U32MAX := (get_region_ok_bounds m ptr r hget).2.2
  have hres : read_region m ptr max_length =
      Except.error (VmError.conversionErr max_length) := by
    unfold read_region
    rw [hget]
    dsimp only
    unfold to_u32
    rw [if_neg (by omega)]
  exact ⟨by omega, hres, fun a b h => by rw [hres] at h; simp at h⟩

/-- Witness for C10 at max_length 2 to the power 32 on a valid region of
length 3. -/
theorem read_region_large_max_conversion_witness :
    read_region wMem2 0 4294967296 = Except.error (VmError.conversionErr 4294967296) :=
  (read_region_large_max_conversion wMem2 0 4294967296 ⟨12, 4, 3⟩ (by decide)
    (by decide)).2.1

theorem encodeU32_length (v : Nat) : (encodeU32 v).length = 4 := rfl

theorem writeBytes_append (L1 L2 : List Nat) (m : Mem) (p : Nat) :
    writeBytes m p (L1 ++ L2) = writeBytes (writeBytes m p L1) (p + L1.length) L2 := by
  induction L1 generalizing m p with
  | nil => simp [writeBytes]
  | cons b rest ih =>
    show writeBytes (m.set p b) (p + 1) (rest ++ L2) = _
    rw [ih]
    show _ = writeBytes (writeBytes (m.set p b) (p + 1) rest) (p + (b :: rest).length) L2
    congr 1
    simp only [List.length_cons]
    omega

theorem readU32_encodeU32 (m : Mem) (p v : Nat) (hp : p + 4 ≤ m.length)
    (hv : v ≤ U32MAX) :
    readU32 (writeBytes m p (encodeU32 v)) p = v := by
  have hv' : v ≤ 4294967295 := hv
  have e0 : (writeBytes m p (encodeU32 v)).getD (p + 0) 0 = (encodeU32 v).getD 0 0 :=
    getD_writeBytes_inside (encodeU32 v) m p 0 (by simp [encodeU32]) (by rw [encodeU32_length]; omega)
  have e1 : (writeBytes m p (encodeU32 v)).getD (p + 1) 0 = (encodeU32 v).getD 1 0 :=
    getD_writeBytes_inside (encodeU32 v) m p 1 (by simp [encodeU32]) (by rw [encodeU32_length]; omega)
  have e2 : (writeBytes m p (encodeU32 v)).getD (p + 2) 0 = (encodeU32 v).getD 2 0 :=
    getD_writeBytes_inside (encodeU32 v) m p 2 (by simp [encodeU32]) (by rw [encodeU32_length]; omega)
  have e3 : (writeBytes m p (encodeU32 v)).getD (p + 3) 0 = (encodeU32 v).getD 3 0 :=
    getD_writeBytes_inside (encodeU32 v) m p 3 (by simp [encodeU32]) (by rw [encodeU32_length]; omega)
  rw [Nat.add_zero] at e0
  unfold readU32 readByte
  rw [e0, e1, e2, e3]
  simp only [encodeU32, List.getD_cons_zero, List.getD_cons_succ]
  omega

theorem readU32_writeBytes_outside (data : List Nat) (m : Mem) (p q : Nat)
    (h : q + 4 ≤ p ∨ p + data.length ≤ q) :
    readU32 (writeBytes m p data) q = readU32 m q := by
  unfold readU32 readByte
  rw [getD_writeBytes_outside data m p q (by omega),
    getD_writeBytes_outside data m p (q + 1) (by omega),
    getD_writeBytes_outside data m p (q + 2) (by omega),
    getD_writeBytes_outside data m p (q + 3) (by omega)]

/-- Inversion of a successful write_region, internal helper: the capacity and
addressability checks passed, and the final memory is the data copy followed by
the struct write performed by set_region. -/
theorem write_region_ok (m : Mem) (ptr : Nat) (data : List Nat) (r : Region) (m' : Mem)
    (hget : get_region m ptr = Except.ok r)
    (hw : write_region m ptr data = Except.ok m') :
    data.length ≤ r.capacity ∧ r.offset + r.capacity ≤ m.length ∧
    m' = writeBytes (writeBytes m r.offset data) ptr
      (encodeU32 r.offset ++ encodeU32 r.capacity ++ encodeU32 data.length) := by
  unfold write_region at hw
  rw [hget] at hw
  dsimp only at hw
  by_cases hsm : r.capacity < data.length
  · rw [if_pos hsm] at hw; simp at hw
  · rw [if_neg hsm] at hw
    by_cases haddr : r.offset + r.capacity ≤ m.length
    · rw [if_pos haddr] at hw
      unfold set_region at hw
      have hptr : ptr + 12 ≤ (writeBytes m r.offset data).length := by
        rw [writeBytes_length]; exact (get_region_ok m ptr r hget).1
      rw [if_pos hptr] at hw
      injection hw with hw
      exact ⟨by omega, haddr, hw.symm⟩
    · rw [if_neg haddr] at hw; simp at hw

/-- After a successful write_region, re-reading the Region at ptr yields the
original offset and capacity with the length updated to the data size,
internal helper. -/
theorem get_region_after_write (m : Mem) (ptr : Nat) (data : List Nat) (r : Region)
    (hget : get_region m ptr = Except.ok r)
    (hcap : data.length ≤ r.capacity) :
    get_region (writeBytes (writeBytes m r.offset data) ptr
        (encodeU32 r.offset ++ encodeU32 r.capacity ++ encodeU32 data.length)) ptr =
      Except.ok ⟨r.offset, r.capacity, data.length⟩ := by
  obtain ⟨hp12, -, -, -, hval⟩ := get_region_ok m ptr r hget
  obtain ⟨hoff_le, hcap_le, -⟩ := get_region_ok_bounds m ptr r hget
  obtain ⟨hoff_ne, hlc, hor⟩ := (validate_ok_iff r).mp hval
  have hm1 : (writeBytes m r.offset data).length = m.length := writeBytes_length _ _ _
  have hsplit : writeBytes (writeBytes m r.offset data) ptr
      (encodeU32 r.offset ++ encodeU32 r.capacity ++ encodeU32 data.length) =
      writeBytes (writeBytes (writeBytes (writeBytes m r.offset data) ptr
        (encodeU32 r.offset)) (ptr + 4) (encodeU32 r.capacity)) (ptr + 8)
        (encodeU32 data.length) := by
    rw [writeBytes_append, writeBytes_append]
    simp only [List.length_append, encodeU32_length]
  rw [hsplit]
  have hlenA : (writeBytes (writeBytes m r.offset data) ptr (encodeU32 r.offset)).length
      = m.length := by rw [writeBytes_length, hm1]
  have hlenB : (writeBytes (writeBytes (writeBytes m r.offset data) ptr
      (encodeU32 r.offset)) (ptr + 4) (encodeU32 r.capacity)).length = m.length := by
    rw [writeBytes_length, hlenA]
  have hlenC : (writeBytes (writeBytes (writeBytes (writeBytes m r.offset data) ptr
      (encodeU32 r.offset)) (ptr + 4) (encodeU32 r.capacity)) (ptr + 8)
      (encodeU32 data.length)).length = m.length := by
    rw [writeBytes_length, hlenB]
  have h1 : readU32 (writeBytes (writeBytes (writeBytes (writeBytes m r.offset data) ptr
      (encodeU32 r.offset)) (ptr + 4) (encodeU32 r.capacity)) (ptr + 8)
      (encodeU32 data.length)) ptr = r.offset := by
    rw [readU32_writeBytes_outside _ _ _ _ (Or.inl (by omega)),
      readU32_writeBytes_outside _ _ _ _ (Or.inl (by omega)),
      readU32_encodeU32 _ _ _ (by omega) hoff_le]
  have h2 : readU32 (writeBytes (writeBytes (writeBytes (writeBytes m r.offset data) ptr
      (encodeU32 r.offset)) (ptr + 4) (encodeU32 r.capacity)) (ptr + 8)
      (encodeU32 data.length)) (ptr + 4) = r.capacity := by
    rw [readU32_writeBytes_outside _ _ _ _ (Or.inl (by omega)),
      readU32_encodeU32 _ _ _ (by omega) hcap_le]
  have h3 : readU32 (writeBytes (writeBytes (writeBytes (writeBytes m r.offset data) ptr
      (encodeU32 r.offset)) (ptr + 4) (encodeU32 r.capacity)) (ptr + 8)
      (encodeU32 data.length)) (ptr + 8) = data.length := by
    rw [readU32_encodeU32 _ _ _ (by omega) (by omega)]
  have hvalid : validate_region ⟨r.offset, r.capacity, data.length⟩ = Except.ok () :=
    (validate_ok_iff _).mpr ⟨hoff_ne, hcap, hor⟩
  unfold get_region
  rw [h1, h2, h3, hlenC, if_pos (by omega : ptr + 12 ≤ m.length), hvalid]

/-- A sixteen-byte memory whose Region at pointer 4 describes a buffer that
overlaps its own descriptor: offset 4, capacity 12, length 0. -/
def overlapMem : Mem := [0, 0, 0, 0, 4, 0, 0, 0, 12, 0, 0, 0, 0, 0, 0, 0]

/-- The memory produced by write_region overlapMem 4 with the single byte 9:
set_region rewrote the descriptor over the freshly copied data byte. -/
def overlapMem' : Mem := [0, 0, 0, 0, 4, 0, 0, 0, 12, 0, 0, 0, 1, 0, 0, 0]

/-- C4 counterexample: at pointer 4 of overlapMem sits the addressable, valid
Region offset 4 / capacity 12 / length 0, whose buffer overlaps the descriptor
itself. Writing the byte 9 succeeds, yet reading the region back returns the
byte 4, the first descriptor byte rewritten by set_region after the data copy:
the round-trip law fails as universally stated. -/
theorem write_read_roundtrip_cex :
    get_region overlapMem 4 = Except.ok ⟨4, 12, 0⟩ ∧
    List.length [9] ≤ 12 ∧
    write_region overlapMem 4 [9] = Except.ok overlapMem' ∧
    get_region overlapMem' 4 = Except.ok ⟨4, 12, 1⟩ ∧
    read_region overlapMem' 4 1 = Except.ok [4] ∧
    (Except.ok [4] : Except VmError (List Nat)) ≠ Except.ok [9] := by
  refine ⟨by decide, by decide, by decide, by decide, by decide, by decide⟩

/-- C4 amended: the round-trip law holds whenever the written byte range
does not overlap the twelve descriptor bytes at ptr: after a successful
write_region, get_region returns the region with its length set to the data
size and read_region returns exactly the written bytes. -/
theorem write_read_roundtrip_disjoint (m : Mem) (ptr : Nat) (data : List Nat)
    (r : Region) (m' : Mem)
    (hget : get_region m ptr = Except.ok r)
    (hw : write_region m ptr data = Except.ok m')
    (hbytes : ∀ b ∈ data, b < 256)
    (hdisj : r.offset + data.length ≤ ptr ∨ ptr + 12 ≤ r.offset) :
    get_region m' ptr = Except.ok ⟨r.offset, r.capacity, data.length⟩ ∧
    read_region m' ptr data.length = Except.ok data := by
  obtain ⟨hcap, haddr, hm'⟩ := write_region_ok m ptr data r m' hget hw
  obtain ⟨hp12, -, -, -, -⟩ := get_region_ok m ptr r hget
  obtain ⟨hoff_le, hcap_le, -⟩ := get_region_ok_bounds m ptr r hget
  have hget' : get_region m' ptr = Except.ok ⟨r.offset, r.capacity, data.length⟩ := by
    rw [hm']; exact get_region_after_write m ptr data r hget hcap
  refine ⟨hget', ?_⟩
  have hm'len : m'.length = m.length := by
    rw [hm', writeBytes_length, writeBytes_length]
  have hread : readBytes m' r.offset data.length = data := by
    apply List.ext_getElem
    · simp [readBytes]
    · intro i h1 h2
      simp only [readBytes, List.getElem_map, List.getElem_range]
      have hi : i < data.length := h2
      have houter : (writeBytes (writeBytes m r.offset data) ptr
          (encodeU32 r.offset ++ encodeU32 r.capacity ++ encodeU32 data.length)).getD
            (r.offset + i) 0 = (writeBytes m r.offset data).getD (r.offset + i) 0 :=
        getD_writeBytes_outside _ _ _ _
          (by simp only [List.length_append, encodeU32_length]; omega)
      have hinner := getD_writeBytes_inside data m r.offset i hi (by omega)
      unfold readByte
      rw [hm', houter, hinner, List.getD_eq_getElem data 0 hi]
      exact Nat.mod_eq_of_lt (hbytes _ (List.getElem_mem hi))
  unfold read_region
  rw [hget']
  dsimp only
  unfold to_u32
  rw [if_pos (show data.length ≤ U32MAX by omega)]
  dsimp only
  rw [if_neg (by omega), if_pos (by rw [hm'len]; omega), hread]

/-- The twenty-byte memory for the round-trip witness: Region at pointer 0
with offset 16, capacity 4, length 0 over an all-zero buffer. -/
def wMem4 : Mem := [16, 0, 0, 0, 4, 0, 0, 0, 0, 0, 0, 0, 0, 0, 0, 0, 0, 0, 0, 0]

/-- wMem4 after write_region wrote the bytes 1, 2, 3. -/
def wMem4' : Mem := [16, 0, 0, 0, 4, 0, 0, 0, 3, 0, 0, 0, 0, 0, 0, 0, 1, 2, 3, 0]

/-- Witness for C4 amended: writing 1, 2, 3 through a disjoint Region and
reading them back. -/
theorem write_read_roundtrip_disjoint_witness :
    get_region wMem4' 0 = Except.ok ⟨16, 4, 3⟩ ∧
    read_region wMem4' 0 3 = Except.ok [1, 2, 3] :=
  write_read_roundtrip_disjoint wMem4 0 [1, 2, 3] ⟨16, 4, 0⟩ wMem4' (by decide)
    (by decide) (by decide) (Or.inr (by decide))

/-- The memory for the C9 counterexample: Region at pointer 4 with offset 4,
capacity 12, length 5 — the buffer covers the descriptor itself. -/
def frameMem : Mem := [0, 0, 0, 0, 4, 0, 0, 0, 12, 0, 0, 0, 5, 0, 0, 0]

/-- frameMem after write_region of the empty slice rewrote the descriptor. -/
def frameMem' : Mem := [0, 0, 0, 0, 4, 0, 0, 0, 12, 0, 0, 0, 0, 0, 0, 0]

/-- C9 counterexample: a successful zero-length write_region on a Region whose
buffer overlaps its own descriptor changes byte 12, which lies inside
offset + data.len() to offset + capacity, because that byte is part of the
descriptor's length field persisted by set_region: the frame property fails
as universally stated. -/
theorem write_region_frame_cex :
    get_region frameMem 4 = Except.ok ⟨4, 12, 5⟩ ∧
    write_region frameMem 4 [] = Except.ok frameMem' ∧
    4 + List.length ([] : List Nat) ≤ 12 ∧ 12 < 4 + 12 ∧
    readByte frameMem 12 = 5 ∧ readByte frameMem' 12 = 0 := by
  refine ⟨by decide, by decide, by decide, by decide, by decide, by decide⟩

/-- C9 amended: after a successful write_region, every guest byte in the range
offset + data.len() to offset + capacity that is not one of the four bytes of
the descriptor's length field keeps its value, and the persisted Region keeps
its offset and capacity with only the length updated to data.len(). -/
theorem write_region_frame (m : Mem) (ptr : Nat) (data : List Nat) (r : Region) (m' : Mem)
    (hget : get_region m ptr = Except.ok r)
    (hw : write_region m ptr data = Except.ok m') :
    (∀ i, r.offset + data.length ≤ i → i < r.offset + r.capacity →
      (i < ptr + 8 ∨ ptr + 12 ≤ i) → readByte m' i = readByte m i) ∧
    get_region m' ptr = Except.ok ⟨r.offset, r.capacity, data.length⟩ := by
  obtain ⟨hcap, haddr, hm'⟩ := write_region_ok m ptr data r m' hget hw
  obtain ⟨hp12, hro, hrc, -, -⟩ := get_region_ok m ptr r hget
  refine ⟨?_, by rw [hm']; exact get_region_after_write m ptr data r hget hcap⟩
  intro i hlo hhi hexc
  have houter : i < ptr ∨ ptr + 12 ≤ i → readByte m' i = readByte m i := by
    intro hX
    rw [hm']
    unfold readByte
    rw [getD_writeBytes_outside _ _ _ _
        (by simp only [List.length_append, encodeU32_length]; omega),
      getD_writeBytes_outside data m r.offset i (Or.inr (by omega))]
  rcases hexc with hlt | hge
  · by_cases hout : i < ptr
    · exact houter (Or.inl hout)
    · have hoff_eq : m.getD ptr 0 % 256 + 256 * (m.getD (ptr + 1) 0 % 256) +
          65536 * (m.getD (ptr + 2) 0 % 256) + 16777216 * (m.getD (ptr + 3) 0 % 256) =
          r.offset := by rw [hro]; rfl
      have hcap_eq : m.getD (ptr + 4) 0 % 256 + 256 * (m.getD (ptr + 5) 0 % 256) +
          65536 * (m.getD (ptr + 6) 0 % 256) + 16777216 * (m.getD (ptr + 7) 0 % 256) =
          r.capacity := by rw [hrc]; rfl
      have hj : i - ptr < 8 := by omega
      have hieq : i = ptr + (i - ptr) := by omega
      rw [hm']
      unfold readByte
      rw [hieq, getD_writeBytes_inside _ _ _ _
        (by simp only [List.length_append, encodeU32_length]; omega)
        (by simp only [List.length_append, encodeU32_length]
            rw [writeBytes_length]; omega)]
      set j := i - ptr with hjdef
      interval_cases j <;>
        simp only [encodeU32, List.cons_append, List.nil_append, List.getD_cons_zero,
          List.getD_cons_succ, Nat.add_zero] <;>
        omega
  · exact houter (Or.inr hge)

/-- wMem4 after write_region wrote the single byte 7. -/
def wMem9' : Mem := [16, 0, 0, 0, 4, 0, 0, 0, 1, 0, 0, 0, 0, 0, 0, 0, 7, 0, 0, 0]

/-- Witness for C9 amended: after writing one byte through the Region of wMem4,
byte 18 of the untouched buffer tail keeps its value and the persisted Region
keeps offset 16 and capacity 4 with length 1. -/
theorem write_region_frame_witness :
    readByte wMem9' 18 = readByte wMem4 18 ∧
    get_region wMem9' 0 = Except.ok ⟨16, 4, 1⟩ :=
  ⟨(write_region_frame wMem4 0 [7] ⟨16, 4, 0⟩ wMem9' (by decide) (by decide)).1 18
      (by decide) (by decide) (Or.inr (by decide)),
   (write_region_frame wMem4 0 [7] ⟨16, 4, 0⟩ wMem9' (by decide) (by decide)).2⟩

end CosmwasmVM
